import Mathlib

/-!
Verification of the hegiahe3 photo-gallery application.

The development shallowly embeds the record store (`lib/db.ts`), the
Locket sync handler (`pages/api/locket/sync.ts`), the reset handler
(`pages/api/locket/reset.ts`), the moments mapping
(`pages/api/locket/moments.ts`), the frontend reader (`lib/images.ts`),
the public read API (`pages/api/images/index.ts`) and the slug
derivation of the admin upload handler.

JavaScript conventions used throughout the embedding:
* a missing or empty string field is represented by `""` and the JS
  truthiness test `x || y` on strings becomes `orS x y`;
* nullable values become `Option`;
* environment-dependent primitives (`Date.now`, `toISOString`,
  `toLocaleDateString`, `Date.parse`) are bundled in `JsEnv` and passed
  explicitly, so every theorem holds for an arbitrary environment.
-/

namespace Gallery

/-- JS `a || b` on strings: `""` is falsy. -/
def orS (a b : String) : String := if a = "" then b else a

/-- JS `a || undefined` on a string: empty becomes `none`. -/
def strToOpt (s : String) : Option String := if s = "" then none else some s

/-- Read an optional string the way JS reads a possibly-null field. -/
def optS (o : Option String) : String := o.getD ""

/-- Environment-dependent JS primitives, passed explicitly. -/
structure JsEnv where
  nowIso : String
  isoOfMs : Int → String
  localeDateVN : Int → String
  dateMs : String → Int

/-- A gallery record as stored in `database/images.json`
(`ImageData` in `lib/db.ts`, extended with the optional fields the
Locket sync/reset handlers write). -/
structure ImageData where
  id : Nat
  slug : String
  title : String
  description : Option String := none
  image_url : String
  thumbnail_url : Option String := none
  video_url : Option String := none
  width : Int
  height : Int
  file_size : Option Nat := none
  order_index : Int
  created_at : String
  updated_at : String
  source : Option String := none
  locket_user_id : Option String := none
  caption : Option String := none
  overlays : Option String := none
deriving DecidableEq

/-- The stored database object (`{ images, nextId }` in `lib/db.ts`). -/
structure DB where
  images : List ImageData
  nextId : Nat
deriving DecidableEq

/-- Input of `createImage`: `Omit<ImageData, 'id'|'created_at'|'updated_at'>`. -/
structure NewImageData where
  slug : String
  title : String
  description : Option String := none
  image_url : String
  thumbnail_url : Option String := none
  video_url : Option String := none
  width : Int
  height : Int
  file_size : Option Nat := none
  order_index : Int
  source : Option String := none
  locket_user_id : Option String := none
  caption : Option String := none
  overlays : Option String := none
deriving DecidableEq

/-- A `Partial<ImageData>` update payload: `none` means the key is absent. -/
structure ImageUpdate where
  id : Option Nat := none
  slug : Option String := none
  title : Option String := none
  description : Option (Option String) := none
  image_url : Option String := none
  thumbnail_url : Option (Option String) := none
  video_url : Option (Option String) := none
  width : Option Int := none
  height : Option Int := none
  file_size : Option (Option Nat) := none
  order_index : Option Int := none
  created_at : Option String := none
  updated_at : Option String := none
  source : Option (Option String) := none
  locket_user_id : Option (Option String) := none
  caption : Option (Option String) := none
  overlays : Option (Option String) := none
deriving DecidableEq

/-- The comparator of `getAllImages` in `lib/db.ts`
(`(a, b) => b.order_index - a.order_index || b.id - a.id`):
`a` may precede `b` iff the comparator is nonpositive. -/
def jsImageLe (a b : ImageData) : Prop :=
  b.order_index < a.order_index ∨ (b.order_index = a.order_index ∧ b.id ≤ a.id)

instance : DecidableRel jsImageLe := fun a b => by
  unfold jsImageLe; exact inferInstance

instance : IsTotal ImageData jsImageLe := by
  constructor; intro a b; unfold jsImageLe; omega

instance : IsTrans ImageData jsImageLe := by
  constructor; intro a b c hab hbc; unfold jsImageLe at *; omega

/-- `getAllImages` of `lib/db.ts`: the stored list sorted by the JS
comparator (descending `order_index`, ties broken by descending `id`).
JS `Array.prototype.sort` is stable, as is insertion sort. -/
def getAllImages (db : DB) : List ImageData :=
  List.insertionSort jsImageLe db.images

/-- `getImageBySlug` of `lib/db.ts`: first record with the given slug. -/
def getImageBySlug (db : DB) (slug : String) : Option ImageData :=
  db.images.find? (fun img => img.slug == slug)

/-- `getImageById` of `lib/db.ts`. -/
def getImageById (db : DB) (id : Nat) : Option ImageData :=
  db.images.find? (fun img => img.id == id)

/-- `createImage` of `lib/db.ts`: assigns `nextId`, stamps both
timestamps with the current time, appends, increments `nextId`. -/
def createImage (db : DB) (data : NewImageData) (now : String) : ImageData × DB :=
  let newImage : ImageData :=
    { id := db.nextId
      slug := data.slug
      title := data.title
      description := data.description
      image_url := data.image_url
      thumbnail_url := data.thumbnail_url
      video_url := data.video_url
      width := data.width
      height := data.height
      file_size := data.file_size
      order_index := data.order_index
      created_at := now
      updated_at := now
      source := data.source
      locket_user_id := data.locket_user_id
      caption := data.caption
      overlays := data.overlays }
  (newImage, ⟨db.images ++ [newImage], db.nextId + 1⟩)

/-- The merged record `{...old, ...data, id, updated_at: now}` of
`updateImage`: keys present in the payload win, then `id` is forced
back and `updated_at` is overwritten. -/
def applyUpdate (old : ImageData) (d : ImageUpdate) (id : Nat) (now : String) : ImageData :=
  { id := id
    slug := d.slug.getD old.slug
    title := d.title.getD old.title
    description := d.description.getD old.description
    image_url := d.image_url.getD old.image_url
    thumbnail_url := d.thumbnail_url.getD old.thumbnail_url
    video_url := d.video_url.getD old.video_url
    width := d.width.getD old.width
    height := d.height.getD old.height
    file_size := d.file_size.getD old.file_size
    order_index := d.order_index.getD old.order_index
    created_at := d.created_at.getD old.created_at
    updated_at := now
    source := d.source.getD old.source
    locket_user_id := d.locket_user_id.getD old.locket_user_id
    caption := d.caption.getD old.caption
    overlays := d.overlays.getD old.overlays }

/-- Replace the first record with the given id (the
`findIndex`/assignment pair inside `updateImage`); returns the new list
and the updated record. -/
def updateFirst (id : Nat) (d : ImageUpdate) (now : String) :
    List ImageData → Option (List ImageData × ImageData)
  | [] => none
  | img :: rest =>
    if img.id = id then
      some ((applyUpdate img d id now) :: rest, applyUpdate img d id now)
    else
      (updateFirst id d now rest).map (fun p => (img :: p.1, p.2))

/-- `updateImage` of `lib/db.ts`. -/
def updateImage (db : DB) (id : Nat) (d : ImageUpdate) (now : String) :
    Option ImageData × DB :=
  match updateFirst id d now db.images with
  | none => (none, db)
  | some (imgs, updated) => (some updated, ⟨imgs, db.nextId⟩)

/-- Remove the first record with the given id (the
`findIndex`/`splice` pair inside `deleteImage`). -/
def deleteFirst (id : Nat) : List ImageData → Option (List ImageData)
  | [] => none
  | img :: rest =>
    if img.id = id then some rest
    else (deleteFirst id rest).map (fun l => img :: l)

/-- `deleteImage` of `lib/db.ts`: `false` when the id is absent. -/
def deleteImage (db : DB) (id : Nat) : Bool × DB :=
  match deleteFirst id db.images with
  | none => (false, db)
  | some imgs => (true, ⟨imgs, db.nextId⟩)

/-- Does a character survive the `[^a-z0-9]` character class after
lowercasing? -/
def isSlugChar (c : Char) : Bool :=
  ('a' ≤ c && c ≤ 'z') || ('0' ≤ c && c ≤ '9')

/-- The regex `\.[^/.]+$` of `generateSlug`: strip a final dot followed
by one or more characters none of which is `.` or `/`. -/
def stripExt (s : List Char) : List Char :=
  let rs := s.reverse
  let ext := rs.takeWhile (fun c => c ≠ '.' && c ≠ '/')
  match rs.drop ext.length with
  | '.' :: _ => if ext.isEmpty then s else (rs.drop (ext.length + 1)).reverse
  | _ => s

/-- The regex `[^a-z0-9]+` → `-` of `generateSlug`: each maximal run of
non-alphanumeric characters becomes a single dash. The flag records
whether the previous character belonged to such a run. -/
def dashRunsAux : Bool → List Char → List Char
  | _, [] => []
  | inRun, c :: rest =>
    if isSlugChar c then c :: dashRunsAux false rest
    else if inRun then dashRunsAux true rest
    else '-' :: dashRunsAux true rest

/-- Replace each maximal run of non-alphanumerics by a single dash. -/
def dashRuns (l : List Char) : List Char := dashRunsAux false l

/-- The regex `/^-+|-+$/g` → `""` of `generateSlug`: drop leading and
trailing dashes. -/
def trimDashes (s : List Char) : List Char :=
  ((s.dropWhile (· = '-')).reverse.dropWhile (· = '-')).reverse

/-- `generateSlug` of the admin upload handler: lowercase, strip the
extension, dash runs of non-alphanumerics, trim dashes. -/
def generateSlug (filename : String) : String :=
  ⟨trimDashes (dashRuns (stripExt (filename.data.map Char.toLower)))⟩

/-- `.replace(/\.[^/.]+$/, '')` on a string (used for the default
upload title, without lowercasing). -/
def stripExtStr (s : String) : String := ⟨stripExt s.data⟩

/-- The `imageData` object built by the upload handler before
`createImage` (file metadata passed in as parameters). -/
def uploadImageData (origFilename fallbackName : String)
    (titleField descField : Option String) (filename thumbFilename : String)
    (w h : Int) (size : Nat) : NewImageData :=
  { slug := generateSlug (orS origFilename fallbackName)
    title := orS (optS titleField) (orS (stripExtStr origFilename) "Untitled")
    description := strToOpt (optS descField)
    image_url := "/uploads/" ++ filename
    thumbnail_url := some ("/uploads/" ++ thumbFilename)
    width := w
    height := h
    file_size := some size
    order_index := 0 }

/-- A normalized Locket moment (the `LocketMoment` shape produced by
`pages/api/locket/moments.ts` and consumed by sync/reset). -/
structure Moment where
  id : String
  user : String
  imageUrl : String
  thumbnailUrl : String
  videoUrl : Option String := none
  caption : Option String := none
  overlays : Option String := none
  createTime : Int := 0
  date : String := ""
deriving DecidableEq

/-- A JS `created_at` value in a raw moment: number, Firestore
timestamp object, string, or absent. -/
inductive JsTime where
  | tnum (n : Int)
  | tobj (seconds : Int)
  | tstr (s : String)
  | tnone
deriving DecidableEq

/-- A raw moment object returned by Locket's `getLatestMomentV2`
(string fields use `""` for absent, matching JS falsiness). -/
structure RawMoment where
  canonical_uid : String := ""
  id : String := ""
  moment_uid : String := ""
  thumbnail_url : String := ""
  thumbnailUrl : String := ""
  image_url : String := ""
  photo_url : String := ""
  imageUrl : String := ""
  photoUrl : String := ""
  video_url : String := ""
  videoUrl : String := ""
  caption : String := ""
  overlays : Option String := none
  created_at : JsTime := .tnone
  createTime : Option Int := none
  date : String := ""
  user : String := ""
  sender_uid : String := ""
deriving DecidableEq

/-- The `createTime` extraction of the moments mapping: an `if`/`else
if` chain over the possible shapes of `created_at`, falling back to
`createTime` and then `date`. -/
def rawCreateTime (env : JsEnv) (m : RawMoment) : Int :=
  let dateFb : Int :=
    if m.date ≠ "" then (env.dateMs m.date).fdiv 1000 else 0
  let ctFb : Int :=
    match m.createTime with
    | some n => if n ≠ 0 then n else dateFb
    | none => dateFb
  match m.created_at with
  | .tnum n => if n ≠ 0 then n else ctFb
  | .tobj s => if s ≠ 0 then s else 0
  | .tstr s => if s ≠ "" then (env.dateMs s).fdiv 1000 else ctFb
  | .tnone => ctFb

/-- The per-entry mapping of `fetchLocketMoments`: `none` when the
entry has no usable id. -/
def rawToMoment (env : JsEnv) (localId : String) (m : RawMoment) : Option Moment :=
  let id := orS m.canonical_uid (orS m.id m.moment_uid)
  if id = "" then none
  else
    let thumbnailUrl := orS m.thumbnail_url m.thumbnailUrl
    let fullResUrl := orS m.image_url (orS m.photo_url (orS m.imageUrl m.photoUrl))
    let createTime := rawCreateTime env m
    some
      { id := id
        user := orS m.user (orS m.sender_uid localId)
        imageUrl := orS fullResUrl thumbnailUrl
        thumbnailUrl := orS thumbnailUrl fullResUrl
        videoUrl := strToOpt (orS m.video_url m.videoUrl)
        caption := strToOpt m.caption
        overlays := m.overlays
        createTime := createTime
        date := if createTime ≠ 0 then env.isoOfMs (createTime * 1000) else "" }

/-- Comparator of the moments listing: `(a, b) => b.createTime - a.createTime`. -/
def momentLe (a b : Moment) : Prop := b.createTime ≤ a.createTime

instance : DecidableRel momentLe := fun a b => by
  unfold momentLe; exact inferInstance

instance : IsTotal Moment momentLe := by
  constructor; intro a b; unfold momentLe; omega

instance : IsTrans Moment momentLe := by
  constructor; intro a b c hab hbc; unfold momentLe at *; omega

/-- The listing produced by `pages/api/locket/moments.ts`: map each raw
entry, drop entries without id or without any image URL, sort by
`createTime` descending. -/
def locketMoments (env : JsEnv) (localId : String) (raws : List RawMoment) : List Moment :=
  List.insertionSort momentLe
    (((raws.filterMap (rawToMoment env localId)).filter
      (fun m => orS m.imageUrl m.thumbnailUrl ≠ "")))

/-- The on-disk `database/images.json` as the sync handler parses it:
either a bare array (legacy) or the `{ images, nextId }` object. -/
inductive StoreFile where
  | arr (imgs : List ImageData)
  | obj (db : DB)
deriving DecidableEq

/-- The records held by a store file. -/
def storeImages : StoreFile → List ImageData
  | .arr imgs => imgs
  | .obj db => db.images

/-- The sync handler's load of the store: a bare array derives
`nextId` as `Math.max(0, ...ids) + 1`; the object shape uses
`db.nextId || images.length + 1`. -/
def loadStore : StoreFile → DB
  | .arr imgs => ⟨imgs, (imgs.map (fun img => img.id)).foldl max 0 + 1⟩
  | .obj db => ⟨db.images, if db.nextId = 0 then db.images.length + 1 else db.nextId⟩

/-- The filter both sync and reset apply to the listing:
`moment.thumbnailUrl || moment.imageUrl` must be truthy. -/
def momentFilter (m : Moment) : Bool :=
  m.thumbnailUrl ≠ "" || m.imageUrl ≠ ""

/-- The gallery record the sync handler builds for a new moment.
`idv` is the id taken from the running counter and `syncedAfter` the
value of `syncedCount` after its increment. -/
def syncMomentRecord (env : JsEnv) (localId : String) (existingLen : Nat)
    (m : Moment) (idv : Nat) (syncedAfter : Nat) : ImageData :=
  { id := idv
    slug := "locket-" ++ m.id
    title := orS (optS m.caption)
      ("Locket " ++ orS m.date (env.localeDateVN (m.createTime * 1000)))
    description := some (if optS m.videoUrl ≠ "" then "Video từ Locket" else "Ảnh cá nhân từ Locket")
    image_url := orS m.imageUrl m.thumbnailUrl
    video_url := strToOpt (optS m.videoUrl)
    thumbnail_url := some (orS m.thumbnailUrl m.imageUrl)
    width := 1080
    height := 1080
    created_at := orS m.date (if m.createTime ≠ 0 then env.isoOfMs (m.createTime * 1000) else env.nowIso)
    updated_at := env.nowIso
    order_index := (existingLen : Int) + (syncedAfter : Int)
    source := some "locket"
    locket_user_id := some localId }

/-- The mutable state of the sync handler's map over the listing:
the `existingSlugs` set, the `nextId` counter, both counters, and the
new records accumulated in reverse order. -/
structure SyncAcc where
  slugs : List String
  nextId : Nat
  synced : Nat
  skipped : Nat
  rev : List ImageData
deriving DecidableEq

/-- One step of the sync map: skip a duplicate slug, otherwise build a
record, take the next id and remember the slug. -/
def syncStep (env : JsEnv) (localId : String) (existingLen : Nat)
    (acc : SyncAcc) (m : Moment) : SyncAcc :=
  let slug := "locket-" ++ m.id
  if slug ∈ acc.slugs then { acc with skipped := acc.skipped + 1 }
  else
    { slugs := slug :: acc.slugs
      nextId := acc.nextId + 1
      synced := acc.synced + 1
      skipped := acc.skipped
      rev := syncMomentRecord env localId existingLen m acc.nextId (acc.synced + 1) :: acc.rev }

/-- Run the sync handler's filter/map over a listing against a loaded
database. -/
def runSync (env : JsEnv) (localId : String) (db : DB) (moments : List Moment) : SyncAcc :=
  (moments.filter momentFilter).foldl (syncStep env localId db.images.length)
    ⟨db.images.map (fun img => img.slug), db.nextId, 0, 0, []⟩

/-- The sync handler's effect on the loaded database: when no new
record survives dedup the file is not rewritten. -/
def syncCoreDB (env : JsEnv) (localId : String) (db : DB) (moments : List Moment) : DB :=
  let acc := runSync env localId db moments
  let newImages := acc.rev.reverse
  if newImages.isEmpty then db else ⟨db.images ++ newImages, acc.nextId⟩

/-- The credential sources of the sync/reset handlers:
`req.body?.token || req.headers['x-locket-token']` and likewise for the
user id (`""` models an absent or empty value). -/
structure ApiReq where
  bodyToken : String := ""
  headerToken : String := ""
  bodyUid : String := ""
  headerUid : String := ""
deriving DecidableEq

/-- The resolved Locket token of a request. -/
def reqToken (r : ApiReq) : String := orS r.bodyToken r.headerToken

/-- The resolved Locket user id of a request. -/
def reqUid (r : ApiReq) : String := orS r.bodyUid r.headerUid

/-- Outcome of a sync/reset request: the store file after the request
plus the JSON response fields. -/
structure HandlerOut where
  store : StoreFile
  status : Nat
  success : Bool
  syncedCount : Option Nat
  skippedCount : Option Nat
deriving DecidableEq

/-- `pages/api/locket/sync.ts`: credential check, moments fetch
(`none` models a failed or unsuccessful fetch), load, dedup/merge,
rewrite. The early branches leave the store file untouched. -/
def syncHandler (env : JsEnv) (req : ApiReq) (prior : StoreFile)
    (momentsResult : Option (List Moment)) : HandlerOut :=
  if reqToken req = "" || reqUid req = "" then ⟨prior, 401, false, none, none⟩
  else
    match momentsResult with
    | none => ⟨prior, 400, false, none, none⟩
    | some moments =>
      let db := loadStore prior
      let acc := runSync env (reqUid req) db moments
      let newImages := acc.rev.reverse
      if newImages.isEmpty then ⟨prior, 200, true, some 0, some acc.skipped⟩
      else
        ⟨.obj ⟨db.images ++ newImages, acc.nextId⟩, 200, true,
          some newImages.length, some acc.skipped⟩

/-- The gallery record the reset handler builds for a moment; `idv` is
the assigned id, which also becomes the `order_index` (`nextId - 1`
after the post-increment). -/
def resetRecord (env : JsEnv) (localId : String) (idv : Nat) (m : Moment) : ImageData :=
  { id := idv
    slug := "locket-" ++ m.id
    title := orS (optS m.caption)
      ("Locket " ++ orS m.date (env.localeDateVN (m.createTime * 1000)))
    description := some (if optS m.videoUrl ≠ "" then "Video từ Locket" else "Ảnh cá nhân từ Locket")
    image_url := orS m.imageUrl m.thumbnailUrl
    video_url := strToOpt (optS m.videoUrl)
    thumbnail_url := some (orS m.thumbnailUrl m.imageUrl)
    width := 1080
    height := 1080
    created_at := orS m.date (if m.createTime ≠ 0 then env.isoOfMs (m.createTime * 1000) else env.nowIso)
    updated_at := env.nowIso
    order_index := (idv : Int)
    source := some "locket"
    locket_user_id := some localId
    caption := strToOpt (optS m.caption)
    overlays := m.overlays }

/-- The fresh record list the reset handler builds: all filtered
moments, ids assigned `1, 2, ...` in listing order, no dedup. -/
def resetImages (env : JsEnv) (localId : String) (moments : List Moment) : List ImageData :=
  ((moments.filter momentFilter).enum).map (fun p => resetRecord env localId (p.1 + 1) p.2)

/-- `pages/api/locket/reset.ts`: credential check, moments fetch, then
rewrite the store from scratch with `nextId` one past the new count. -/
def resetHandler (env : JsEnv) (req : ApiReq) (prior : StoreFile)
    (momentsResult : Option (List Moment)) : HandlerOut :=
  if reqToken req = "" || reqUid req = "" then ⟨prior, 401, false, none, none⟩
  else
    match momentsResult with
    | none => ⟨prior, 400, false, none, none⟩
    | some moments =>
      let newImages := resetImages env (reqUid req) moments
      ⟨.obj ⟨newImages, newImages.length + 1⟩, 200, true, some newImages.length, none⟩

/-- The `ImageData` shape of `lib/images.ts` (frontend variant). -/
structure FrontImage where
  id : String
  slug : String
  image_url : String
  thumbnail_url : String
  video_url : Option String
  title : String
  description : String
  caption : String
  width : Int
  height : Int
  created_at : String
  order_index : Int
  source : String
  overlays : Option String
deriving DecidableEq

/-- A raw record as it may sit in the JSON file, with every field
possibly absent (string fields use `""`, numbers use `Option`). -/
structure RawImg where
  id : Option Nat := none
  slug : String := ""
  image_url : String := ""
  thumbnailUrl : String := ""
  thumbnail_url : String := ""
  videoUrl : String := ""
  video_url : String := ""
  title : String := ""
  caption : String := ""
  description : String := ""
  width : Option Int := none
  height : Option Int := none
  created_at : String := ""
  order_index : Option Int := none
  source : String := ""
  overlays : Option String := none
deriving DecidableEq

/-- JS `n || d` for an optional numeric field (`0` is falsy). -/
def numOr (o : Option Int) (d : Int) : Int :=
  match o with
  | some n => if n = 0 then d else n
  | none => d

/-- The field normalization `lib/images.ts` applies to each raw record. -/
def normImg (env : JsEnv) (img : RawImg) : FrontImage :=
  { id := match img.id with
      | some n => if n = 0 then img.slug else toString n
      | none => img.slug
    slug := img.slug
    image_url := orS img.image_url img.thumbnailUrl
    thumbnail_url := orS img.thumbnail_url (orS img.thumbnailUrl img.image_url)
    video_url := strToOpt (orS img.video_url img.videoUrl)
    title := orS img.title img.caption
    description := img.description
    caption := orS img.caption img.title
    width := numOr img.width 800
    height := numOr img.height 800
    created_at := orS img.created_at env.nowIso
    order_index := numOr img.order_index 0
    source := orS img.source "locket"
    overlays := img.overlays }

/-- The state of the database file as seen by `lib/images.ts`:
missing (`existsSync` false), a read/parse/shape failure (caught, the
function returns `[]`), or a parsed record list (bare array or the
`images` field of the object shape). -/
inductive DbFile where
  | missing
  | unreadable
  | parsed (imgs : List RawImg)
deriving DecidableEq

/-- Comparator of the frontend sort:
`(a, b) => Date(b.created_at) - Date(a.created_at)`. -/
def frontLe (env : JsEnv) (a b : FrontImage) : Prop :=
  env.dateMs b.created_at ≤ env.dateMs a.created_at

instance (env : JsEnv) : DecidableRel (frontLe env) := fun a b => by
  unfold frontLe; exact inferInstance

/-- `getAllImages` of `lib/images.ts`: empty on any failure, otherwise
normalize, drop records without an image URL, sort by `created_at`
descending. -/
def frontGetAllImages (env : JsEnv) (file : DbFile) : List FrontImage :=
  match file with
  | .missing => []
  | .unreadable => []
  | .parsed imgs =>
    List.insertionSort (frontLe env)
      ((imgs.map (normImg env)).filter (fun i => i.image_url ≠ ""))

/-- `getImageBySlug` of `lib/images.ts`. -/
def frontGetImageBySlug (env : JsEnv) (file : DbFile) (slug : String) : Option FrontImage :=
  (frontGetAllImages env file).find? (fun img => img.slug == slug)

/-- A response of the public read API. -/
inductive ApiResp where
  | list (imgs : List ImageData)
  | single (img : ImageData)
  | err (msg : String)
deriving DecidableEq

/-- `pages/api/images/index.ts` (GET): `slug` is the parsed query
parameter (`none` when absent). The guard `slug && typeof slug ===
'string'` makes an empty-string value fall through to the full list. -/
def imagesHandler (db : DB) (slug : Option String) : Nat × ApiResp :=
  match slug with
  | some s =>
    if s ≠ "" then
      match getImageBySlug db s with
      | none => (404, .err "Image not found")
      | some img => (200, .single img)
    else (200, .list (getAllImages db))
  | none => (200, .list (getAllImages db))

/-- A record-store operation, for reasoning about reachable states. -/
inductive Op where
  | ins (data : NewImageData) (now : String)
  | upd (id : Nat) (d : ImageUpdate) (now : String)
  | del (id : Nat)
  | syn (env : JsEnv) (uid : String) (moments : List Moment)

/-- Apply one operation to the stored database. Each API invocation
rereads the file, so the sync case goes through `loadStore`. -/
def applyOp (db : DB) : Op → DB
  | .ins data now => (createImage db data now).2
  | .upd id d now => (updateImage db id d now).2
  | .del id => (deleteImage db id).2
  | .syn env uid ms => syncCoreDB env uid (loadStore (.obj db)) ms

/-- Run a sequence of operations. -/
def runOps (db : DB) (ops : List Op) : DB := ops.foldl applyOp db

/-- The collection invariant of the data model: unique slugs, unique
ids, every id below the counter, counter at least 1. -/
def Inv (db : DB) : Prop :=
  (db.images.map (fun r => r.slug)).Nodup ∧
  (db.images.map (fun r => r.id)).Nodup ∧
  (∀ r ∈ db.images, r.id < db.nextId) ∧
  1 ≤ db.nextId

/-- The identifier half of the collection invariant on its own: unique
ids, every id below the counter, counter at least 1. It holds in every
reachable state with no side condition on the operations. -/
def IdInv (db : DB) : Prop :=
  (db.images.map (fun r => r.id)).Nodup ∧
  (∀ r ∈ db.images, r.id < db.nextId) ∧
  1 ≤ db.nextId

/-- Freshness guard under which an operation cannot break slug
uniqueness: inserts use an unused slug, updates do not rename a record
to the slug of a different record. -/
def opOk (db : DB) : Op → Prop
  | .ins data _ => data.slug ∉ db.images.map (fun r => r.slug)
  | .upd i d _ => ∀ s, d.slug = some s → ∀ r ∈ db.images, r.id ≠ i → r.slug ≠ s
  | .del _ => True
  | .syn _ _ _ => True

/-- A trace is admissible when each operation satisfies the freshness
guard in the state where it runs. -/
def okTrace : DB → List Op → Prop
  | _, [] => True
  | db, op :: ops => opOk db op ∧ okTrace (applyOp db op) ops

/-- The initial database written by `initDB`. -/
def initialDB : DB := ⟨[], 1⟩

/-- A concrete JS environment for evaluating the model. -/
def env0 : JsEnv :=
  ⟨"2024-01-01T00:00:00.000Z", fun _ => "1970-01-01T00:00:00.000Z",
    fun _ => "1.1.1970", fun _ => 0⟩

/-- A concrete record. -/
def cRecA : ImageData :=
  { id := 1, slug := "a", title := "t", image_url := "u", width := 1,
    height := 1, order_index := 0, created_at := "c0", updated_at := "c0" }

/-- A concrete one-record database. -/
def cDb1 : DB := ⟨[cRecA], 2⟩

/-- A concrete insert payload. -/
def cNewA : NewImageData :=
  { slug := "a", title := "t", image_url := "u", width := 1, height := 1,
    order_index := 0 }

/-- A concrete Locket moment. -/
def cMomentA : Moment :=
  { id := "m1", user := "u1", imageUrl := "http-img", thumbnailUrl := "http-th" }

/-- A concrete raw frontend record. -/
def cRawA : RawImg := { slug := "s", image_url := "u" }

/-- A concrete authenticated request. -/
def cReqA : ApiReq := { bodyToken := "tok", bodyUid := "uid" }

/-- A concrete raw moment with an image URL. -/
def cRawMomentA : RawMoment := { canonical_uid := "m1", image_url := "http-img" }

end Gallery

namespace Gallery

/-- C6: `getAllImages` returns all stored records (a permutation of the
collection) in an order where every earlier record has a strictly
larger `order_index`, or an equal `order_index` and a larger-or-equal
`id`, than every later one: sorted by order index descending, ties
broken by id descending. -/
theorem c6_list_all_sorted (db : DB) :
    List.Perm (getAllImages db) db.images ∧
    (getAllImages db).Pairwise (fun a b =>
      b.order_index < a.order_index ∨
        (b.order_index = a.order_index ∧ b.id ≤ a.id)) :=
  ⟨List.perm_insertionSort jsImageLe db.images,
    List.sorted_insertionSort jsImageLe db.images⟩

/-- `updateFirst` rewrites exactly the record that `find?` locates. -/
theorem updateFirst_of_find (i : Nat) (d : ImageUpdate) (now : String) :
    ∀ (l : List ImageData) (orig : ImageData),
      l.find? (fun r => r.id == i) = some orig →
      ∃ l2, updateFirst i d now l = some (l2, applyUpdate orig d i now) := by
  intro l
  induction l with
  | nil => intro orig h; simp [List.find?] at h
  | cons a t ih =>
    intro orig h
    by_cases ha : a.id = i
    · have hb : (a.id == i) = true := by simpa using ha
      simp only [List.find?, hb] at h
      obtain rfl : a = orig := by simpa using h
      exact ⟨applyUpdate a d i now :: t, by simp [updateFirst, ha]⟩
    · have hb : (a.id == i) = false := by simpa using ha
      simp only [List.find?, hb] at h
      obtain ⟨l2, hl2⟩ := ih orig h
      exact ⟨a :: l2, by simp [updateFirst, ha, hl2]⟩

/-- C4: updating a stored record keeps its id (even when the payload
carries a different id), stamps `updated_at` with the update time, and
leaves every field the payload does not name unchanged. -/
theorem c4_update_frame (db : DB) (i : Nat) (d : ImageUpdate) (now : String)
    (orig : ImageData) (h : getImageById db i = some orig) :
    ∃ r, (updateImage db i d now).1 = some r ∧
      r.id = orig.id ∧
      r.updated_at = now ∧
      (d.slug = none → r.slug = orig.slug) ∧
      (d.title = none → r.title = orig.title) ∧
      (d.description = none → r.description = orig.description) ∧
      (d.image_url = none → r.image_url = orig.image_url) ∧
      (d.thumbnail_url = none → r.thumbnail_url = orig.thumbnail_url) ∧
      (d.video_url = none → r.video_url = orig.video_url) ∧
      (d.width = none → r.width = orig.width) ∧
      (d.height = none → r.height = orig.height) ∧
      (d.file_size = none → r.file_size = orig.file_size) ∧
      (d.order_index = none → r.order_index = orig.order_index) ∧
      (d.created_at = none → r.created_at = orig.created_at) ∧
      (d.source = none → r.source = orig.source) ∧
      (d.locket_user_id = none → r.locket_user_id = orig.locket_user_id) ∧
      (d.caption = none → r.caption = orig.caption) ∧
      (d.overlays = none → r.overlays = orig.overlays) := by
  have hid : orig.id = i := by
    have := List.find?_some h
    simpa using this
  obtain ⟨l2, hl2⟩ := updateFirst_of_find i d now db.images orig h
  refine ⟨applyUpdate orig d i now, ?_, ?_⟩
  · simp [updateImage, hl2]
  · refine ⟨by simp [applyUpdate, hid], by simp [applyUpdate], ?_⟩
    repeat' constructor
    all_goals intro hn; simp [applyUpdate, hn]

/-- Closed witness for C4: updating the one-record database. -/
theorem c4_update_frame_witness :
    ∃ r, (updateImage cDb1 1 {} "T").1 = some r ∧
      r.id = cRecA.id ∧
      r.updated_at = "T" ∧
      (({} : ImageUpdate).slug = none → r.slug = cRecA.slug) ∧
      (({} : ImageUpdate).title = none → r.title = cRecA.title) ∧
      (({} : ImageUpdate).description = none → r.description = cRecA.description) ∧
      (({} : ImageUpdate).image_url = none → r.image_url = cRecA.image_url) ∧
      (({} : ImageUpdate).thumbnail_url = none → r.thumbnail_url = cRecA.thumbnail_url) ∧
      (({} : ImageUpdate).video_url = none → r.video_url = cRecA.video_url) ∧
      (({} : ImageUpdate).width = none → r.width = cRecA.width) ∧
      (({} : ImageUpdate).height = none → r.height = cRecA.height) ∧
      (({} : ImageUpdate).file_size = none → r.file_size = cRecA.file_size) ∧
      (({} : ImageUpdate).order_index = none → r.order_index = cRecA.order_index) ∧
      (({} : ImageUpdate).created_at = none → r.created_at = cRecA.created_at) ∧
      (({} : ImageUpdate).source = none → r.source = cRecA.source) ∧
      (({} : ImageUpdate).locket_user_id = none → r.locket_user_id = cRecA.locket_user_id) ∧
      (({} : ImageUpdate).caption = none → r.caption = cRecA.caption) ∧
      (({} : ImageUpdate).overlays = none → r.overlays = cRecA.overlays) :=
  c4_update_frame cDb1 1 {} "T" cRecA (by decide)

/-- `deleteFirst` fails exactly on absent ids. -/
theorem deleteFirst_eq_none (i : Nat) :
    ∀ l : List ImageData, i ∉ l.map (fun r => r.id) → deleteFirst i l = none := by
  intro l
  induction l with
  | nil => intro _; rfl
  | cons a t ih =>
    intro h
    simp only [List.map_cons, List.mem_cons] at h
    push_neg at h
    have ha : ¬a.id = i := fun hh => h.1 hh.symm
    simp [deleteFirst, ha, ih h.2]

/-- Deleting a present id (unique in the collection) removes it. -/
theorem deleteFirst_removes (i : Nat) :
    ∀ l : List ImageData, (l.map (fun r => r.id)).Nodup →
      i ∈ l.map (fun r => r.id) →
      ∃ l2, deleteFirst i l = some l2 ∧ i ∉ l2.map (fun r => r.id) := by
  intro l
  induction l with
  | nil => intro _ h; simp at h
  | cons a t ih =>
    intro hnd hmem
    simp only [List.map_cons, List.nodup_cons] at hnd
    by_cases ha : a.id = i
    · refine ⟨t, by simp [deleteFirst, ha], ?_⟩
      rw [← ha]; exact hnd.1
    · have ht : i ∈ t.map (fun r => r.id) := by
        rcases (by simpa using hmem : i = a.id ∨ ∃ r ∈ t, r.id = i) with h | h
        · exact absurd h.symm ha
        · simpa using h
      obtain ⟨l2, h1, h2⟩ := ih hnd.2 ht
      refine ⟨a :: l2, by simp [deleteFirst, ha, h1], ?_⟩
      simp only [List.map_cons, List.mem_cons]
      push_neg
      exact ⟨fun hh => ha hh.symm, h2⟩

/-- C5: deleting a stored record by id succeeds; the id no longer
appears in subsequent `getAllImages` results; a second delete of the
same id reports not-found and leaves the database unchanged. -/
theorem c5_delete_idempotent (db : DB) (i : Nat)
    (hnd : (db.images.map (fun r => r.id)).Nodup)
    (hmem : i ∈ db.images.map (fun r => r.id)) :
    (deleteImage db i).1 = true ∧
    i ∉ (getAllImages (deleteImage db i).2).map (fun r => r.id) ∧
    deleteImage (deleteImage db i).2 i = (false, (deleteImage db i).2) := by
  obtain ⟨l2, h1, h2⟩ := deleteFirst_removes i db.images hnd hmem
  have hdel : deleteImage db i = (true, ⟨l2, db.nextId⟩) := by
    simp [deleteImage, h1]
  refine ⟨by simp [hdel], ?_, ?_⟩
  · rw [hdel]
    intro hc
    apply h2
    simp only [List.mem_map] at hc ⊢
    obtain ⟨r, hr, hri⟩ := hc
    exact ⟨r, by simpa [getAllImages] using hr, hri⟩
  · rw [hdel]
    simp [deleteImage, deleteFirst_eq_none i l2 h2]

/-- Closed witness for C5: deleting the only record of `cDb1`. -/
theorem c5_delete_idempotent_witness :
    (deleteImage cDb1 1).1 = true ∧
    1 ∉ (getAllImages (deleteImage cDb1 1).2).map (fun r => r.id) ∧
    deleteImage (deleteImage cDb1 1).2 1 = (false, (deleteImage cDb1 1).2) :=
  c5_delete_idempotent cDb1 1 (by decide) (by decide)

/-- C7 counterexample: on a database whose only record has slug `"a"`,
the GET request `?slug=` carries a slug query parameter (the empty
string) matching no record, yet the handler answers 200 with the full
list instead of 404. -/
theorem c7_counterexample :
    getImageBySlug cDb1 "" = none ∧
    (imagesHandler cDb1 (some "")).1 = 200 ∧
    ¬(imagesHandler cDb1 (some "")).1 = 404 := by
  decide

/-- C7 (amended): for a nonempty slug parameter the handler returns 404
with a JSON error body when no record matches and the record with 200
otherwise; a request without a slug — or with an empty slug value,
which the guard treats as absent — returns the full record list. -/
theorem c7_read_api (db : DB) (s : String) (hs : s ≠ "") :
    (getImageBySlug db s = none →
      imagesHandler db (some s) = (404, .err "Image not found")) ∧
    (∀ img, getImageBySlug db s = some img →
      imagesHandler db (some s) = (200, .single img)) ∧
    imagesHandler db none = (200, .list (getAllImages db)) ∧
    imagesHandler db (some "") = (200, .list (getAllImages db)) := by
  refine ⟨?_, ?_, rfl, rfl⟩
  · intro h; simp [imagesHandler, hs, h]
  · intro img h; simp [imagesHandler, hs, h]

/-- Closed witness for C7 (amended), at slug `"a"` on `cDb1`. -/
theorem c7_read_api_witness :
    (getImageBySlug cDb1 "a" = none →
      imagesHandler cDb1 (some "a") = (404, .err "Image not found")) ∧
    (∀ img, getImageBySlug cDb1 "a" = some img →
      imagesHandler cDb1 (some "a") = (200, .single img)) ∧
    imagesHandler cDb1 none = (200, .list (getAllImages cDb1)) ∧
    imagesHandler cDb1 (some "") = (200, .list (getAllImages cDb1)) :=
  c7_read_api cDb1 "a" (by decide)

/-- C8: slugs are derived deterministically — `"Desert Sunset.jpg"`
yields `desert-sunset`; the record created from an upload carries
`generateSlug` of the original filename; every record built by sync or
reset for a moment carries `locket-` followed by the moment's external
id. -/
theorem c8_slug_derivation :
    generateSlug "Desert Sunset.jpg" = "desert-sunset" ∧
    (∀ (db : DB) (of fb : String) (tf df : Option String) (fn tfn : String)
      (w h : Int) (sz : Nat) (now : String),
      ((createImage db (uploadImageData of fb tf df fn tfn w h sz) now).1).slug
        = generateSlug (orS of fb)) ∧
    (∀ (env : JsEnv) (localId : String) (len : Nat) (m : Moment) (idv k : Nat),
      (syncMomentRecord env localId len m idv k).slug = "locket-" ++ m.id) ∧
    (∀ (env : JsEnv) (localId : String) (idv : Nat) (m : Moment),
      (resetRecord env localId idv m).slug = "locket-" ++ m.id) :=
  ⟨by decide, fun _ _ _ _ _ _ _ _ _ _ _ => rfl, fun _ _ _ _ _ _ => rfl,
    fun _ _ _ _ => rfl⟩

/-- C9: the frontend reader returns the empty list whenever the
database file is missing or cannot be read or parsed, and every record
it does return has a nonempty image URL. -/
theorem c9_front_reader (env : JsEnv) :
    frontGetAllImages env .missing = [] ∧
    frontGetAllImages env .unreadable = [] ∧
    (∀ (file : DbFile) (r : FrontImage),
      r ∈ frontGetAllImages env file → r.image_url ≠ "") := by
  refine ⟨rfl, rfl, ?_⟩
  intro file r hr
  cases file with
  | missing => simp [frontGetAllImages] at hr
  | unreadable => simp [frontGetAllImages] at hr
  | parsed imgs =>
    simp only [frontGetAllImages, List.mem_insertionSort, List.mem_filter] at hr
    exact of_decide_eq_true hr.2

/-- Closed witness for C9, at a concrete parsed file. -/
theorem c9_front_reader_witness :
    frontGetAllImages env0 .missing = [] ∧
    frontGetAllImages env0 .unreadable = [] ∧
    (normImg env0 cRawA).image_url ≠ "" := by
  have h := c9_front_reader env0
  exact ⟨h.1, h.2.1, h.2.2 (.parsed [cRawA]) (normImg env0 cRawA) (by decide)⟩

/-- C10: a sync or reset request whose Locket token or user id is
missing is answered with 401 and `success: false`, and the stored
collection is left exactly as it was. -/
theorem c10_missing_credentials (env : JsEnv) (req : ApiReq) (prior : StoreFile)
    (momentsResult : Option (List Moment))
    (h : reqToken req = "" ∨ reqUid req = "") :
    syncHandler env req prior momentsResult = ⟨prior, 401, false, none, none⟩ ∧
    resetHandler env req prior momentsResult = ⟨prior, 401, false, none, none⟩ := by
  rcases h with h | h <;> simp [syncHandler, resetHandler, h]

/-- Closed witness for C10: a request with no credentials at all. -/
theorem c10_missing_credentials_witness :
    syncHandler env0 {} (.obj cDb1) none = ⟨.obj cDb1, 401, false, none, none⟩ ∧
    resetHandler env0 {} (.obj cDb1) none = ⟨.obj cDb1, 401, false, none, none⟩ :=
  c10_missing_credentials env0 {} (.obj cDb1) none (Or.inl (by decide))

/-- The sync fold only prepends: the final `rev` extends the initial
one by a block `rs`, and the slug set grows by exactly the slugs of
`rs`. -/
theorem sync_foldl_decomp (env : JsEnv) (uid : String) (len : Nat) :
    ∀ (ms : List Moment) (acc : SyncAcc), ∃ rs : List ImageData,
      (ms.foldl (syncStep env uid len) acc).rev = rs ++ acc.rev ∧
      (ms.foldl (syncStep env uid len) acc).slugs
        = rs.map (fun r => r.slug) ++ acc.slugs := by
  intro ms
  induction ms with
  | nil => intro acc; exact ⟨[], by simp, by simp⟩
  | cons m t ih =>
    intro acc
    rw [List.foldl_cons]
    by_cases h : ("locket-" ++ m.id) ∈ acc.slugs
    · have hstep : syncStep env uid len acc m
          = { acc with skipped := acc.skipped + 1 } := by
        simp [syncStep, h]
      rw [hstep]
      obtain ⟨rs, h1, h2⟩ := ih { acc with skipped := acc.skipped + 1 }
      exact ⟨rs, h1, h2⟩
    · have hstep : syncStep env uid len acc m
          = { slugs := ("locket-" ++ m.id) :: acc.slugs
              nextId := acc.nextId + 1
              synced := acc.synced + 1
              skipped := acc.skipped
              rev := syncMomentRecord env uid len m acc.nextId (acc.synced + 1)
                :: acc.rev } := by
        simp [syncStep, h]
      rw [hstep]
      obtain ⟨rs, h1, h2⟩ := ih _
      refine ⟨rs ++ [syncMomentRecord env uid len m acc.nextId (acc.synced + 1)], ?_, ?_⟩
      · rw [h1]; simp
      · rw [h2]; simp [syncMomentRecord]

/-- The sync fold never produces a duplicate slug in its set. -/
theorem sync_foldl_nodup (env : JsEnv) (uid : String) (len : Nat) :
    ∀ (ms : List Moment) (acc : SyncAcc), acc.slugs.Nodup →
      (ms.foldl (syncStep env uid len) acc).slugs.Nodup := by
  intro ms
  induction ms with
  | nil => intro acc h; exact h
  | cons m t ih =>
    intro acc h
    rw [List.foldl_cons]
    by_cases hm : ("locket-" ++ m.id) ∈ acc.slugs
    · have hstep : syncStep env uid len acc m
          = { acc with skipped := acc.skipped + 1 } := by simp [syncStep, hm]
      rw [hstep]; exact ih _ h
    · have hstep : syncStep env uid len acc m
          = { slugs := ("locket-" ++ m.id) :: acc.slugs
              nextId := acc.nextId + 1
              synced := acc.synced + 1
              skipped := acc.skipped
              rev := syncMomentRecord env uid len m acc.nextId (acc.synced + 1)
                :: acc.rev } := by simp [syncStep, hm]
      rw [hstep]
      exact ih _ (List.nodup_cons.mpr ⟨hm, h⟩)

/-- Slugs already recorded stay recorded through the sync fold. -/
theorem sync_foldl_slugs_mono (env : JsEnv) (uid : String) (len : Nat) :
    ∀ (ms : List Moment) (acc : SyncAcc) (s : String), s ∈ acc.slugs →
      s ∈ (ms.foldl (syncStep env uid len) acc).slugs := by
  intro ms
  induction ms with
  | nil => intro acc s h; exact h
  | cons m t ih =>
    intro acc s h
    rw [List.foldl_cons]
    by_cases hm : ("locket-" ++ m.id) ∈ acc.slugs
    · have hstep : syncStep env uid len acc m
          = { acc with skipped := acc.skipped + 1 } := by simp [syncStep, hm]
      rw [hstep]; exact ih _ s h
    · have hstep : syncStep env uid len acc m
          = { slugs := ("locket-" ++ m.id) :: acc.slugs
              nextId := acc.nextId + 1
              synced := acc.synced + 1
              skipped := acc.skipped
              rev := syncMomentRecord env uid len m acc.nextId (acc.synced + 1)
                :: acc.rev } := by simp [syncStep, hm]
      rw [hstep]
      exact ih _ s (List.mem_cons_of_mem _ h)

/-- After the sync fold, the slug of every processed moment is in the
slug set. -/
theorem sync_foldl_slug_mem (env : JsEnv) (uid : String) (len : Nat) :
    ∀ (ms : List Moment) (acc : SyncAcc) (m : Moment), m ∈ ms →
      ("locket-" ++ m.id) ∈ (ms.foldl (syncStep env uid len) acc).slugs := by
  intro ms
  induction ms with
  | nil => intro acc m h; simp at h
  | cons m0 t ih =>
    intro acc m h
    rw [List.foldl_cons]
    rcases List.mem_cons.mp h with rfl | ht
    · by_cases hm : ("locket-" ++ m.id) ∈ acc.slugs
      · have hstep : syncStep env uid len acc m
            = { acc with skipped := acc.skipped + 1 } := by simp [syncStep, hm]
        rw [hstep]; exact sync_foldl_slugs_mono env uid len t _ _ hm
      · have hstep : syncStep env uid len acc m
            = { slugs := ("locket-" ++ m.id) :: acc.slugs
                nextId := acc.nextId + 1
                synced := acc.synced + 1
                skipped := acc.skipped
                rev := syncMomentRecord env uid len m acc.nextId (acc.synced + 1)
                  :: acc.rev } := by simp [syncStep, hm]
        rw [hstep]
        exact sync_foldl_slugs_mono env uid len t _ _ (List.mem_cons_self _ _)
    · exact ih _ m ht

/-- When every processed moment's slug is already recorded, the sync
fold only counts skips. -/
theorem sync_foldl_all_skipped (env : JsEnv) (uid : String) (len : Nat) :
    ∀ (ms : List Moment) (acc : SyncAcc),
      (∀ m ∈ ms, ("locket-" ++ m.id) ∈ acc.slugs) →
      ms.foldl (syncStep env uid len) acc
        = { acc with skipped := acc.skipped + ms.length } := by
  intro ms
  induction ms with
  | nil => intro acc _; simp
  | cons m t ih =>
    intro acc h
    rw [List.foldl_cons]
    have hm : ("locket-" ++ m.id) ∈ acc.slugs := h m (List.mem_cons_self _ _)
    have hstep : syncStep env uid len acc m
        = { acc with skipped := acc.skipped + 1 } := by simp [syncStep, hm]
    rw [hstep]
    rw [ih { acc with skipped := acc.skipped + 1 }
      (fun m' hm' => h m' (List.mem_cons_of_mem _ hm'))]
    simp only [List.length_cons]
    congr 1
    omega

/-- Id accounting of the sync fold: the counter never decreases, every
accumulated record's id stays below the counter, accumulated ids are
strictly decreasing along `rev`, and every record that was not already
accumulated received an id at or above the initial counter. -/
theorem sync_foldl_ids (env : JsEnv) (uid : String) (len : Nat) :
    ∀ (ms : List Moment) (acc : SyncAcc),
      (∀ r ∈ acc.rev, r.id < acc.nextId) →
      acc.rev.Pairwise (fun a b => b.id < a.id) →
      acc.nextId ≤ (ms.foldl (syncStep env uid len) acc).nextId ∧
      (∀ r ∈ (ms.foldl (syncStep env uid len) acc).rev,
        r.id < (ms.foldl (syncStep env uid len) acc).nextId) ∧
      (ms.foldl (syncStep env uid len) acc).rev.Pairwise (fun a b => b.id < a.id) ∧
      (∀ r ∈ (ms.foldl (syncStep env uid len) acc).rev,
        r ∈ acc.rev ∨ acc.nextId ≤ r.id) := by
  intro ms
  induction ms with
  | nil => intro acc h1 h2; exact ⟨le_refl _, h1, h2, fun r hr => Or.inl hr⟩
  | cons m t ih =>
    intro acc h1 h2
    rw [List.foldl_cons]
    by_cases hm : ("locket-" ++ m.id) ∈ acc.slugs
    · have hstep : syncStep env uid len acc m
          = { acc with skipped := acc.skipped + 1 } := by simp [syncStep, hm]
      rw [hstep]
      exact ih { acc with skipped := acc.skipped + 1 } h1 h2
    · have hstep : syncStep env uid len acc m
          = { slugs := ("locket-" ++ m.id) :: acc.slugs
              nextId := acc.nextId + 1
              synced := acc.synced + 1
              skipped := acc.skipped
              rev := syncMomentRecord env uid len m acc.nextId (acc.synced + 1)
                :: acc.rev } := by simp [syncStep, hm]
      rw [hstep]
      have hrec : (syncMomentRecord env uid len m acc.nextId (acc.synced + 1)).id
          = acc.nextId := rfl
      have h1' : ∀ r ∈ syncMomentRecord env uid len m acc.nextId (acc.synced + 1)
          :: acc.rev, r.id < acc.nextId + 1 := by
        intro r hr
        rcases List.mem_cons.mp hr with rfl | hr
        · omega
        · exact Nat.lt_succ_of_lt (h1 r hr)
      have h2' : (syncMomentRecord env uid len m acc.nextId (acc.synced + 1)
          :: acc.rev).Pairwise (fun a b => b.id < a.id) := by
        refine List.pairwise_cons.mpr ⟨?_, h2⟩
        intro b hb
        rw [hrec]
        exact h1 b hb
      obtain ⟨g1, g2, g3, g4⟩ :=
        ih { slugs := ("locket-" ++ m.id) :: acc.slugs
             nextId := acc.nextId + 1
             synced := acc.synced + 1
             skipped := acc.skipped
             rev := syncMomentRecord env uid len m acc.nextId (acc.synced + 1)
               :: acc.rev } h1' h2'
      refine ⟨le_trans (Nat.le_succ _) g1, g2, g3, ?_⟩
      intro r hr
      rcases g4 r hr with hrm | hge
      · rcases List.mem_cons.mp hrm with rfl | hrm
        · exact Or.inr (by rw [hrec])
        · exact Or.inl hrm
      · exact Or.inr (le_trans (Nat.le_succ _) hge)

/-- Loading never changes the record list itself. -/
theorem loadStore_images (f : StoreFile) : (loadStore f).images = storeImages f := by
  cases f <;> rfl

/-- The sync handler under valid credentials and a successful moments
fetch, written out. -/
theorem syncHandler_auth (env : JsEnv) (req : ApiReq) (prior : StoreFile)
    (listing : List Moment) (ht : reqToken req ≠ "") (hu : reqUid req ≠ "") :
    syncHandler env req prior (some listing)
      = if (runSync env (reqUid req) (loadStore prior) listing).rev.reverse.isEmpty
        then ⟨prior, 200, true, some 0,
          some (runSync env (reqUid req) (loadStore prior) listing).skipped⟩
        else ⟨.obj ⟨(loadStore prior).images
            ++ (runSync env (reqUid req) (loadStore prior) listing).rev.reverse,
            (runSync env (reqUid req) (loadStore prior) listing).nextId⟩, 200, true,
          some (runSync env (reqUid req) (loadStore prior) listing).rev.reverse.length,
          some (runSync env (reqUid req) (loadStore prior) listing).skipped⟩ := by
  simp [syncHandler, ht, hu]

/-- When every filtered moment's slug is already stored, sync leaves
the store file untouched and reports a synced count of zero. -/
theorem syncHandler_skip_all (env : JsEnv) (req : ApiReq) (prior2 : StoreFile)
    (listing : List Moment) (ht : reqToken req ≠ "") (hu : reqUid req ≠ "")
    (hall : ∀ m ∈ listing.filter momentFilter,
      ("locket-" ++ m.id) ∈ (loadStore prior2).images.map (fun img => img.slug)) :
    (syncHandler env req prior2 (some listing)).store = prior2 ∧
    (syncHandler env req prior2 (some listing)).syncedCount = some 0 := by
  have hrun : runSync env (reqUid req) (loadStore prior2) listing
      = { slugs := (loadStore prior2).images.map (fun img => img.slug)
          nextId := (loadStore prior2).nextId
          synced := 0
          skipped := 0 + (listing.filter momentFilter).length
          rev := [] } := by
    have h := sync_foldl_all_skipped env (reqUid req) (loadStore prior2).images.length
      (listing.filter momentFilter)
      (⟨(loadStore prior2).images.map (fun img => img.slug),
        (loadStore prior2).nextId, 0, 0, []⟩ : SyncAcc) hall
    exact h
  rw [syncHandler_auth env req prior2 listing ht hu, hrun]
  exact ⟨rfl, rfl⟩

/-- C2: under the collection invariant on the prior store, a sync never
leaves two records with the same slug (duplicates inside the listing
and against existing records are skipped), and a second sync with the
unchanged listing reports a synced count of zero and leaves the store
file untouched. -/
theorem c2_sync_dedup (env : JsEnv) (req : ApiReq) (prior : StoreFile)
    (listing : List Moment) (ht : reqToken req ≠ "") (hu : reqUid req ≠ "")
    (hnd : ((storeImages prior).map (fun r => r.slug)).Nodup) :
    ((storeImages (syncHandler env req prior (some listing)).store).map
      (fun r => r.slug)).Nodup ∧
    (syncHandler env req (syncHandler env req prior (some listing)).store
      (some listing)).store = (syncHandler env req prior (some listing)).store ∧
    (syncHandler env req (syncHandler env req prior (some listing)).store
      (some listing)).syncedCount = some 0 := by
  have hdbnd : ((loadStore prior).images.map (fun r => r.slug)).Nodup := by
    rw [loadStore_images]; exact hnd
  have haccdef : runSync env (reqUid req) (loadStore prior) listing
      = (listing.filter momentFilter).foldl
          (syncStep env (reqUid req) (loadStore prior).images.length)
          ⟨(loadStore prior).images.map (fun img => img.slug),
            (loadStore prior).nextId, 0, 0, []⟩ := rfl
  obtain ⟨rs, hrev, hslugs⟩ := sync_foldl_decomp env (reqUid req)
      (loadStore prior).images.length (listing.filter momentFilter)
      ⟨(loadStore prior).images.map (fun img => img.slug),
        (loadStore prior).nextId, 0, 0, []⟩
  rw [← haccdef] at hrev hslugs
  rw [List.append_nil] at hrev
  have haccnd : (runSync env (reqUid req) (loadStore prior) listing).slugs.Nodup := by
    rw [haccdef]
    exact sync_foldl_nodup _ _ _ _ _ hdbnd
  have hmemacc : ∀ m ∈ listing.filter momentFilter,
      ("locket-" ++ m.id) ∈ (runSync env (reqUid req) (loadStore prior) listing).slugs := by
    intro m hm
    rw [haccdef]
    exact sync_foldl_slug_mem _ _ _ _ _ m hm
  by_cases hE :
      (runSync env (reqUid req) (loadStore prior) listing).rev.reverse.isEmpty = true
  · -- nothing new: the file is not rewritten
    have hrs : rs = [] := by
      have : (runSync env (reqUid req) (loadStore prior) listing).rev = [] := by
        have := List.isEmpty_iff.mp hE
        simpa using congrArg List.reverse this
      rw [this] at hrev; exact hrev.symm
    have hout : syncHandler env req prior (some listing)
        = ⟨prior, 200, true, some 0,
          some (runSync env (reqUid req) (loadStore prior) listing).skipped⟩ := by
      rw [syncHandler_auth env req prior listing ht hu, if_pos hE]
    have hall : ∀ m ∈ listing.filter momentFilter,
        ("locket-" ++ m.id) ∈ (loadStore prior).images.map (fun img => img.slug) := by
      intro m hm
      have h3 := hmemacc m hm
      rw [hslugs, hrs] at h3
      simpa using h3
    have hskip := syncHandler_skip_all env req prior listing ht hu hall
    rw [hout]
    exact ⟨hnd, hskip.1.trans rfl, hskip.2⟩
  · -- new records appended
    have hout : syncHandler env req prior (some listing)
        = ⟨.obj ⟨(loadStore prior).images
            ++ (runSync env (reqUid req) (loadStore prior) listing).rev.reverse,
            (runSync env (reqUid req) (loadStore prior) listing).nextId⟩, 200, true,
          some (runSync env (reqUid req) (loadStore prior) listing).rev.reverse.length,
          some (runSync env (reqUid req) (loadStore prior) listing).skipped⟩ := by
      rw [syncHandler_auth env req prior listing ht hu, if_neg hE]
    have hnd2 : (((loadStore prior).images
        ++ (runSync env (reqUid req) (loadStore prior) listing).rev.reverse).map
          (fun r => r.slug)).Nodup := by
      rw [List.map_append, List.map_reverse, hrev]
      have hperm : ((rs.map (fun r => r.slug))
            ++ ((loadStore prior).images.map (fun img => img.slug))).Perm
          (((loadStore prior).images.map (fun r => r.slug))
            ++ (rs.map (fun r => r.slug)).reverse) :=
        List.perm_append_comm.trans
          (List.Perm.append_left _ (List.reverse_perm _).symm)
      exact hperm.nodup (hslugs ▸ haccnd)
    have hall : ∀ m ∈ listing.filter momentFilter,
        ("locket-" ++ m.id) ∈ (loadStore (StoreFile.obj
          ⟨(loadStore prior).images
            ++ (runSync env (reqUid req) (loadStore prior) listing).rev.reverse,
            (runSync env (reqUid req) (loadStore prior) listing).nextId⟩)).images.map
          (fun img => img.slug) := by
      intro m hm
      have h3 := hmemacc m hm
      rw [hslugs] at h3
      show ("locket-" ++ m.id) ∈ ((loadStore prior).images
          ++ (runSync env (reqUid req) (loadStore prior) listing).rev.reverse).map
          (fun img => img.slug)
      rw [List.map_append, List.map_reverse, hrev]
      rcases List.mem_append.mp h3 with h | h
      · exact List.mem_append_right _ (List.mem_reverse.mpr h)
      · exact List.mem_append_left _ h
    have hskip := syncHandler_skip_all env req
      (.obj ⟨(loadStore prior).images
        ++ (runSync env (reqUid req) (loadStore prior) listing).rev.reverse,
        (runSync env (reqUid req) (loadStore prior) listing).nextId⟩)
      listing ht hu hall
    rw [hout]
    exact ⟨hnd2, hskip.1, hskip.2⟩

/-- Closed witness for C2: syncing one moment into `cDb1`. -/
theorem c2_sync_dedup_witness :
    ((storeImages (syncHandler env0 cReqA (.obj cDb1) (some [cMomentA])).store).map
      (fun r => r.slug)).Nodup ∧
    (syncHandler env0 cReqA (syncHandler env0 cReqA (.obj cDb1) (some [cMomentA])).store
      (some [cMomentA])).store
      = (syncHandler env0 cReqA (.obj cDb1) (some [cMomentA])).store ∧
    (syncHandler env0 cReqA (syncHandler env0 cReqA (.obj cDb1) (some [cMomentA])).store
      (some [cMomentA])).syncedCount = some 0 :=
  c2_sync_dedup env0 cReqA (.obj cDb1) [cMomentA] (by decide) (by decide) (by decide)

/-- Both sides of the symmetric `||` fallback are nonempty as soon as
their combination is. -/
theorem orS_pair_ne (F T : String) (h : orS (orS F T) (orS T F) ≠ "") :
    orS F T ≠ "" ∧ orS T F ≠ "" := by
  unfold orS at h ⊢
  by_cases hF : F = ""
  · by_cases hT : T = ""
    · rw [hF, hT] at h; simp at h
    · simp [hF, hT]
  · by_cases hT : T = ""
    · simp [hF, hT]
    · simp [hF, hT]

/-- Every moment the moments endpoint returns carries a nonempty image
URL and a nonempty thumbnail URL. -/
theorem locketMoments_urls (env : JsEnv) (localId : String) (raws : List RawMoment) :
    ∀ m ∈ locketMoments env localId raws, m.imageUrl ≠ "" ∧ m.thumbnailUrl ≠ "" := by
  intro m hm
  unfold locketMoments at hm
  rw [List.mem_insertionSort, List.mem_filter] at hm
  obtain ⟨hmem, hcond⟩ := hm
  have hcond2 : orS m.imageUrl m.thumbnailUrl ≠ "" := of_decide_eq_true hcond
  obtain ⟨raw, _, hraw⟩ := List.mem_filterMap.mp hmem
  by_cases hid : orS raw.canonical_uid (orS raw.id raw.moment_uid) = ""
  · simp [rawToMoment, hid] at hraw
  · simp only [rawToMoment, hid, if_false, Option.some.injEq] at hraw
    subst hraw
    exact orS_pair_ne _ _ hcond2

/-- C1: for a listing returned by the moments endpoint, reset replaces
the stored collection entirely — the outcome does not depend on the
prior store — and the record count afterwards equals the listing's
size. -/
theorem c1_reset_replaces (env : JsEnv) (req : ApiReq) (prior prior2 : StoreFile)
    (raws : List RawMoment) (ht : reqToken req ≠ "") (hu : reqUid req ≠ "") :
    (storeImages (resetHandler env req prior
        (some (locketMoments env (reqUid req) raws))).store).length
      = (locketMoments env (reqUid req) raws).length ∧
    resetHandler env req prior2 (some (locketMoments env (reqUid req) raws))
      = resetHandler env req prior (some (locketMoments env (reqUid req) raws)) := by
  have hfilter : (locketMoments env (reqUid req) raws).filter momentFilter
      = locketMoments env (reqUid req) raws := by
    apply List.filter_eq_self.mpr
    intro m hm
    have h := locketMoments_urls env (reqUid req) raws m hm
    unfold momentFilter
    simp [h.2]
  have hout : resetHandler env req prior (some (locketMoments env (reqUid req) raws))
      = ⟨.obj ⟨resetImages env (reqUid req) (locketMoments env (reqUid req) raws),
          (resetImages env (reqUid req) (locketMoments env (reqUid req) raws)).length + 1⟩,
        200, true,
        some (resetImages env (reqUid req) (locketMoments env (reqUid req) raws)).length,
        none⟩ := by
    simp [resetHandler, ht, hu]
  have hout2 : resetHandler env req prior2 (some (locketMoments env (reqUid req) raws))
      = ⟨.obj ⟨resetImages env (reqUid req) (locketMoments env (reqUid req) raws),
          (resetImages env (reqUid req) (locketMoments env (reqUid req) raws)).length + 1⟩,
        200, true,
        some (resetImages env (reqUid req) (locketMoments env (reqUid req) raws)).length,
        none⟩ := by
    simp [resetHandler, ht, hu]
  refine ⟨?_, hout2.trans hout.symm⟩
  rw [hout]
  show (resetImages env (reqUid req) (locketMoments env (reqUid req) raws)).length = _
  unfold resetImages
  rw [hfilter, List.length_map, List.enum_length]

/-- Closed witness for C1: resetting two different priors from one raw
moment. -/
theorem c1_reset_replaces_witness :
    (storeImages (resetHandler env0 cReqA (.obj cDb1)
        (some (locketMoments env0 (reqUid cReqA) [cRawMomentA]))).store).length
      = (locketMoments env0 (reqUid cReqA) [cRawMomentA]).length ∧
    resetHandler env0 cReqA (.arr []) (some (locketMoments env0 (reqUid cReqA) [cRawMomentA]))
      = resetHandler env0 cReqA (.obj cDb1) (some (locketMoments env0 (reqUid cReqA) [cRawMomentA])) :=
  c1_reset_replaces env0 cReqA (.obj cDb1) (.arr []) [cRawMomentA] (by decide) (by decide)

/-- C3 counterexample: `createImage` never checks slug uniqueness, so
inserting the same payload twice reaches a state with two records of
slug `"a"` — the claimed invariant does not hold in every reachable
state. -/
theorem c3_counterexample :
    ((runOps initialDB [Op.ins cNewA "t1", Op.ins cNewA "t2"]).images.map
      (fun r => r.slug)) = ["a", "a"] ∧
    ¬((runOps initialDB [Op.ins cNewA "t1", Op.ins cNewA "t2"]).images.map
      (fun r => r.slug)).Nodup := by
  constructor
  · rfl
  · decide

/-- Inserting a fresh slug preserves the collection invariant, and the
counter grows. -/
theorem inv_createImage (db : DB) (data : NewImageData) (now : String)
    (h : Inv db) (hs : data.slug ∉ db.images.map (fun r => r.slug)) :
    Inv (createImage db data now).2 ∧ db.nextId ≤ (createImage db data now).2.nextId := by
  obtain ⟨h1, h2, h3, h4⟩ := h
  have himg : (createImage db data now).2.images
      = db.images ++ [(createImage db data now).1] := rfl
  have hnid : (createImage db data now).2.nextId = db.nextId + 1 := rfl
  have hrid : ((createImage db data now).1).id = db.nextId := rfl
  have hrslug : ((createImage db data now).1).slug = data.slug := rfl
  refine ⟨⟨?_, ?_, ?_, ?_⟩, by rw [hnid]; exact Nat.le_succ _⟩
  · rw [himg, List.map_append]
    refine List.Nodup.append h1 (by simp) ?_
    intro x hx hx2
    simp only [List.map_cons, List.map_nil, List.mem_singleton] at hx2
    rw [hx2, hrslug] at hx
    exact hs hx
  · rw [himg, List.map_append]
    refine List.Nodup.append h2 (by simp) ?_
    intro x hx hx2
    simp only [List.map_cons, List.map_nil, List.mem_singleton] at hx2
    simp only [List.mem_map] at hx
    obtain ⟨r, hr, hrx⟩ := hx
    have := h3 r hr
    rw [hx2, hrid] at hrx
    omega
  · intro r hr
    rw [hnid]
    rw [himg] at hr
    rcases List.mem_append.mp hr with hr | hr
    · exact Nat.lt_succ_of_lt (h3 r hr)
    · simp only [List.mem_singleton] at hr
      rw [hr, hrid]
      omega
  · rw [hnid]; omega

/-- `updateFirst` splits the list at the first record with the given
id. -/
theorem updateFirst_decomp (i : Nat) (d : ImageUpdate) (now : String) :
    ∀ (l l2 : List ImageData) (r2 : ImageData),
      updateFirst i d now l = some (l2, r2) →
      ∃ l₁ a l₃, l = l₁ ++ a :: l₃ ∧ a.id = i ∧ (∀ b ∈ l₁, b.id ≠ i) ∧
        l2 = l₁ ++ (applyUpdate a d i now) :: l₃ ∧ r2 = applyUpdate a d i now := by
  intro l
  induction l with
  | nil => intro l2 r2 h; simp [updateFirst] at h
  | cons a t ih =>
    intro l2 r2 h
    by_cases ha : a.id = i
    · simp only [updateFirst, if_pos ha, Option.some.injEq, Prod.mk.injEq] at h
      exact ⟨[], a, t, by simp, ha, by simp, by simp [h.1.symm], h.2.symm⟩
    · simp only [updateFirst, if_neg ha] at h
      cases hu : updateFirst i d now t with
      | none => rw [hu] at h; simp at h
      | some p =>
        rw [hu] at h
        simp only [Option.map_some', Option.some.injEq, Prod.mk.injEq] at h
        obtain ⟨l₁, a', l₃, hl, haid, hl₁, hl2, hr2⟩ := ih p.1 p.2 (by rw [hu])
        refine ⟨a :: l₁, a', l₃, by rw [hl]; rfl, haid, ?_, ?_, ?_⟩
        · intro b hb
          rcases List.mem_cons.mp hb with rfl | hb
          · exact ha
          · exact hl₁ b hb
        · rw [← h.1, hl2]; rfl
        · rw [← h.2, hr2]

/-- Updating preserves the collection invariant when the payload does
not rename the record to another record's slug; the counter is
unchanged. -/
theorem inv_updateImage (db : DB) (i : Nat) (d : ImageUpdate) (now : String)
    (h : Inv db)
    (hok : ∀ s, d.slug = some s → ∀ r ∈ db.images, r.id ≠ i → r.slug ≠ s) :
    Inv (updateImage db i d now).2 ∧ (updateImage db i d now).2.nextId = db.nextId := by
  obtain ⟨h1, h2, h3, h4⟩ := h
  cases hu : updateFirst i d now db.images with
  | none =>
    unfold updateImage
    rw [hu]
    exact ⟨⟨h1, h2, h3, h4⟩, rfl⟩
  | some p =>
    obtain ⟨p1, p2⟩ := p
    obtain ⟨l₁, a, l₃, hl, haid, hl₁, hl2, _⟩ :=
      updateFirst_decomp i d now db.images p1 p2 (by rw [hu])
    have hU : updateImage db i d now = (some p2, ⟨p1, db.nextId⟩) := by
      unfold updateImage
      rw [hu]
    have hida : (applyUpdate a d i now).id = a.id := by
      show i = a.id
      exact haid.symm
    have hids : p1.map (fun r => r.id) = db.images.map (fun r => r.id) := by
      rw [hl2, hl, List.map_append, List.map_append, List.map_cons, List.map_cons, hida]
    -- every record away from the split point has a different id
    have hnotid : ∀ b ∈ l₁ ++ l₃, b.id ≠ i := by
      have h2' := h2
      rw [hl, List.map_append, List.map_cons] at h2'
      have hmid := (List.nodup_cons.mp (List.nodup_middle.mp h2')).1
      intro b hb hbid
      apply hmid
      rw [haid, ← hbid]
      rcases List.mem_append.mp hb with hb | hb
      · exact List.mem_append_left _ (List.mem_map_of_mem _ hb)
      · exact List.mem_append_right _ (List.mem_map_of_mem _ hb)
    rw [hU]
    refine ⟨⟨?_, ?_, ?_, h4⟩, rfl⟩
    · -- slug uniqueness of the rewritten list
      show (p1.map (fun r => r.slug)).Nodup
      have h1' := h1
      rw [hl, List.map_append, List.map_cons] at h1'
      rw [hl2, List.map_append, List.map_cons]
      rw [List.nodup_middle, List.nodup_cons] at h1' ⊢
      refine ⟨?_, h1'.2⟩
      cases hds : d.slug with
      | none =>
        have hgs : (applyUpdate a d i now).slug = a.slug := by
          show d.slug.getD a.slug = a.slug
          rw [hds]
          rfl
        rw [hgs]
        exact h1'.1
      | some s =>
        have hss : (applyUpdate a d i now).slug = s := by
          show d.slug.getD a.slug = s
          rw [hds]
          rfl
        rw [hss]
        intro hc
        rw [← List.map_append] at hc
        obtain ⟨b, hb, hbs⟩ := List.mem_map.mp hc
        have hbdb : b ∈ db.images := by
          rw [hl]
          rcases List.mem_append.mp hb with hb | hb
          · exact List.mem_append_left _ hb
          · exact List.mem_append_right _ (List.mem_cons_of_mem _ hb)
        exact hok s hds b hbdb (hnotid b hb) hbs
    · show (p1.map (fun r => r.id)).Nodup
      rw [hids]; exact h2
    · show ∀ r ∈ p1, r.id < db.nextId
      intro r hr
      rw [hl2] at hr
      rcases List.mem_append.mp hr with hr | hr
      · exact h3 r (by rw [hl]; exact List.mem_append_left _ hr)
      · rcases List.mem_cons.mp hr with rfl | hr
        · rw [hida]
          exact h3 a (by rw [hl]; exact List.mem_append_right _ (List.mem_cons_self _ _))
        · exact h3 r (by rw [hl]; exact List.mem_append_right _ (List.mem_cons_of_mem _ hr))

/-- The list left by a successful delete is a sublist of the original. -/
theorem deleteFirst_sublist (i : Nat) :
    ∀ (l l2 : List ImageData), deleteFirst i l = some l2 → l2.Sublist l := by
  intro l
  induction l with
  | nil => intro l2 h; simp [deleteFirst] at h
  | cons a t ih =>
    intro l2 h
    by_cases ha : a.id = i
    · simp only [deleteFirst, if_pos ha, Option.some.injEq] at h
      rw [← h]
      exact List.Sublist.cons _ (List.Sublist.refl t)
    · simp only [deleteFirst, if_neg ha] at h
      cases hu : deleteFirst i t with
      | none => rw [hu] at h; simp at h
      | some l2' =>
        rw [hu] at h
        simp only [Option.map_some', Option.some.injEq] at h
        rw [← h]
        exact (ih l2' hu).cons₂ _

/-- Deleting preserves the collection invariant; the counter is
unchanged. -/
theorem inv_deleteImage (db : DB) (i : Nat) (h : Inv db) :
    Inv (deleteImage db i).2 ∧ (deleteImage db i).2.nextId = db.nextId := by
  obtain ⟨h1, h2, h3, h4⟩ := h
  cases hu : deleteFirst i db.images with
  | none =>
    unfold deleteImage
    rw [hu]
    exact ⟨⟨h1, h2, h3, h4⟩, rfl⟩
  | some l2 =>
    have hsub := deleteFirst_sublist i db.images l2 hu
    unfold deleteImage
    rw [hu]
    refine ⟨⟨List.Nodup.sublist (hsub.map _) h1, List.Nodup.sublist (hsub.map _) h2,
      ?_, h4⟩, rfl⟩
    intro r hr
    exact h3 r (hsub.subset hr)

/-- Syncing preserves the collection invariant, and the counter never
decreases. -/
theorem inv_syncCoreDB (env : JsEnv) (uid : String) (db : DB) (ms : List Moment)
    (h : Inv db) :
    Inv (syncCoreDB env uid db ms) ∧ db.nextId ≤ (syncCoreDB env uid db ms).nextId := by
  obtain ⟨h1, h2, h3, h4⟩ := h
  have haccdef : runSync env uid db ms
      = (ms.filter momentFilter).foldl (syncStep env uid db.images.length)
          ⟨db.images.map (fun img => img.slug), db.nextId, 0, 0, []⟩ := rfl
  obtain ⟨rs, hrev, hslugs⟩ := sync_foldl_decomp env uid db.images.length
      (ms.filter momentFilter)
      ⟨db.images.map (fun img => img.slug), db.nextId, 0, 0, []⟩
  rw [← haccdef] at hrev hslugs
  rw [List.append_nil] at hrev
  have haccnd : (runSync env uid db ms).slugs.Nodup := by
    rw [haccdef]
    exact sync_foldl_nodup _ _ _ _ _ h1
  have hids0 : ∀ r ∈ (⟨db.images.map (fun img => img.slug), db.nextId, 0, 0, []⟩
      : SyncAcc).rev, r.id < (⟨db.images.map (fun img => img.slug), db.nextId, 0, 0, []⟩
      : SyncAcc).nextId := by
    intro r hr
    simp at hr
  have hpw0 : (⟨db.images.map (fun img => img.slug), db.nextId, 0, 0, []⟩
      : SyncAcc).rev.Pairwise (fun a b => b.id < a.id) := by
    simp
  obtain ⟨g1, g2, g3, g4⟩ := sync_foldl_ids env uid db.images.length
    (ms.filter momentFilter)
    ⟨db.images.map (fun img => img.slug), db.nextId, 0, 0, []⟩ hids0 hpw0
  rw [← haccdef] at g1 g2 g3 g4
  unfold syncCoreDB
  by_cases hE : (runSync env uid db ms).rev.reverse.isEmpty = true
  · rw [if_pos hE]
    exact ⟨⟨h1, h2, h3, h4⟩, le_refl _⟩
  · rw [if_neg hE]
    refine ⟨⟨?_, ?_, ?_, ?_⟩, g1⟩
    · -- slug uniqueness of the merged list
      show (((db.images ++ (runSync env uid db ms).rev.reverse).map
        (fun r => r.slug))).Nodup
      rw [List.map_append, List.map_reverse, hrev]
      have hperm : ((rs.map (fun r => r.slug))
            ++ (db.images.map (fun img => img.slug))).Perm
          ((db.images.map (fun r => r.slug)) ++ (rs.map (fun r => r.slug)).reverse) :=
        List.perm_append_comm.trans
          (List.Perm.append_left _ (List.reverse_perm _).symm)
      exact hperm.nodup (hslugs ▸ haccnd)
    · -- id uniqueness of the merged list
      show (((db.images ++ (runSync env uid db ms).rev.reverse).map
        (fun r => r.id))).Nodup
      rw [List.map_append, List.map_reverse]
      refine List.Nodup.append h2 ?_ ?_
      · rw [List.nodup_reverse]
        have hpw : ((runSync env uid db ms).rev.map (fun r => r.id)).Pairwise
            (fun x y => x ≠ y) :=
          List.Pairwise.map _ (fun a b hab => (Nat.ne_of_lt hab).symm) g3
        exact hpw
      · intro x hx hx2
        rw [List.mem_reverse] at hx2
        obtain ⟨r, hr, hrx⟩ := List.mem_map.mp hx2
        obtain ⟨rold, hrold, hrodx⟩ := List.mem_map.mp hx
        have hge : db.nextId ≤ r.id := by
          rcases g4 r hr with hco | hge
          · simp at hco
          · exact hge
        have := h3 rold hrold
        omega
    · intro r hr
      rcases List.mem_append.mp hr with hr | hr
      · exact lt_of_lt_of_le (h3 r hr) g1
      · rw [List.mem_reverse] at hr
        exact g2 r hr
    · exact le_trans h4 g1

/-- The sync handler's load is the identity on object stores whose
counter is at least 1. -/
theorem loadStore_obj_id (db : DB) (h : 1 ≤ db.nextId) :
    loadStore (.obj db) = db := by
  have hz : ¬db.nextId = 0 := by omega
  have hred : loadStore (.obj db)
      = ⟨db.images, if db.nextId = 0 then db.images.length + 1 else db.nextId⟩ := rfl
  rw [hred, if_neg hz]

/-- Under the freshness guard, every operation preserves the full
collection invariant, the counter never decreases, and the next insert
is assigned an id strictly greater than every stored record's. -/
theorem runOps_inv (db : DB) (ops : List Op)
    (hInv : Inv db) (hok : okTrace db ops) :
    Inv (runOps db ops) ∧ db.nextId ≤ (runOps db ops).nextId ∧
    (∀ (data : NewImageData) (now : String),
      ((createImage (runOps db ops) data now).1).id = (runOps db ops).nextId ∧
      ∀ r ∈ (runOps db ops).images,
        r.id < ((createImage (runOps db ops) data now).1).id) := by
  induction ops generalizing db with
  | nil =>
    refine ⟨hInv, le_refl _, ?_⟩
    intro data now
    exact ⟨rfl, fun r hr => hInv.2.2.1 r hr⟩
  | cons op t ih =>
    obtain ⟨hop, htr⟩ := hok
    have hstep : Inv (applyOp db op) ∧ db.nextId ≤ (applyOp db op).nextId := by
      cases op with
      | ins data now => exact inv_createImage db data now hInv hop
      | upd i d now =>
        have h := inv_updateImage db i d now hInv hop
        exact ⟨h.1, le_of_eq h.2.symm⟩
      | del i =>
        have h := inv_deleteImage db i hInv
        exact ⟨h.1, le_of_eq h.2.symm⟩
      | syn env uid ms =>
        have hload : loadStore (.obj db) = db := loadStore_obj_id db hInv.2.2.2
        show Inv (syncCoreDB env uid (loadStore (.obj db)) ms) ∧
          db.nextId ≤ (syncCoreDB env uid (loadStore (.obj db)) ms).nextId
        rw [hload]
        exact inv_syncCoreDB env uid db ms hInv
    have hrun : runOps db (op :: t) = runOps (applyOp db op) t := rfl
    rw [hrun]
    obtain ⟨i1, i2, i3⟩ := ih (applyOp db op) hstep.1 htr
    exact ⟨i1, le_trans hstep.2 i2, i3⟩

/-- Inserting preserves the id invariant with no side condition. -/
theorem idinv_createImage (db : DB) (data : NewImageData) (now : String)
    (h : IdInv db) :
    IdInv (createImage db data now).2 ∧ db.nextId ≤ (createImage db data now).2.nextId := by
  obtain ⟨h2, h3, h4⟩ := h
  have himg : (createImage db data now).2.images
      = db.images ++ [(createImage db data now).1] := rfl
  have hnid : (createImage db data now).2.nextId = db.nextId + 1 := rfl
  have hrid : ((createImage db data now).1).id = db.nextId := rfl
  refine ⟨⟨?_, ?_, ?_⟩, by rw [hnid]; exact Nat.le_succ _⟩
  · rw [himg, List.map_append]
    refine List.Nodup.append h2 (by simp) ?_
    intro x hx hx2
    simp only [List.map_cons, List.map_nil, List.mem_singleton] at hx2
    simp only [List.mem_map] at hx
    obtain ⟨r, hr, hrx⟩ := hx
    have := h3 r hr
    rw [hx2, hrid] at hrx
    omega
  · intro r hr
    rw [hnid]
    rw [himg] at hr
    rcases List.mem_append.mp hr with hr | hr
    · exact Nat.lt_succ_of_lt (h3 r hr)
    · simp only [List.mem_singleton] at hr
      rw [hr, hrid]
      omega
  · rw [hnid]; omega

/-- Updating preserves the id invariant with no side condition: the
rewritten record keeps its id and the counter is unchanged. -/
theorem idinv_updateImage (db : DB) (i : Nat) (d : ImageUpdate) (now : String)
    (h : IdInv db) :
    IdInv (updateImage db i d now).2 ∧ (updateImage db i d now).2.nextId = db.nextId := by
  obtain ⟨h2, h3, h4⟩ := h
  cases hu : updateFirst i d now db.images with
  | none =>
    unfold updateImage
    rw [hu]
    exact ⟨⟨h2, h3, h4⟩, rfl⟩
  | some p =>
    obtain ⟨p1, p2⟩ := p
    obtain ⟨l₁, a, l₃, hl, haid, hl₁, hl2, _⟩ :=
      updateFirst_decomp i d now db.images p1 p2 (by rw [hu])
    have hU : updateImage db i d now = (some p2, ⟨p1, db.nextId⟩) := by
      unfold updateImage
      rw [hu]
    have hida : (applyUpdate a d i now).id = a.id := by
      show i = a.id
      exact haid.symm
    have hids : p1.map (fun r => r.id) = db.images.map (fun r => r.id) := by
      rw [hl2, hl, List.map_append, List.map_append, List.map_cons, List.map_cons, hida]
    rw [hU]
    refine ⟨⟨?_, ?_, h4⟩, rfl⟩
    · show (p1.map (fun r => r.id)).Nodup
      rw [hids]; exact h2
    · show ∀ r ∈ p1, r.id < db.nextId
      intro r hr
      rw [hl2] at hr
      rcases List.mem_append.mp hr with hr | hr
      · exact h3 r (by rw [hl]; exact List.mem_append_left _ hr)
      · rcases List.mem_cons.mp hr with rfl | hr
        · rw [hida]
          exact h3 a (by rw [hl]; exact List.mem_append_right _ (List.mem_cons_self _ _))
        · exact h3 r (by rw [hl]; exact List.mem_append_right _ (List.mem_cons_of_mem _ hr))

/-- Deleting preserves the id invariant with no side condition. -/
theorem idinv_deleteImage (db : DB) (i : Nat) (h : IdInv db) :
    IdInv (deleteImage db i).2 ∧ (deleteImage db i).2.nextId = db.nextId := by
  obtain ⟨h2, h3, h4⟩ := h
  cases hu : deleteFirst i db.images with
  | none =>
    unfold deleteImage
    rw [hu]
    exact ⟨⟨h2, h3, h4⟩, rfl⟩
  | some l2 =>
    have hsub := deleteFirst_sublist i db.images l2 hu
    unfold deleteImage
    rw [hu]
    refine ⟨⟨List.Nodup.sublist (hsub.map _) h2, ?_, h4⟩, rfl⟩
    intro r hr
    exact h3 r (hsub.subset hr)

/-- Syncing preserves the id invariant with no side condition. -/
theorem idinv_syncCoreDB (env : JsEnv) (uid : String) (db : DB) (ms : List Moment)
    (h : IdInv db) :
    IdInv (syncCoreDB env uid db ms) ∧ db.nextId ≤ (syncCoreDB env uid db ms).nextId := by
  obtain ⟨h2, h3, h4⟩ := h
  have haccdef : runSync env uid db ms
      = (ms.filter momentFilter).foldl (syncStep env uid db.images.length)
          ⟨db.images.map (fun img => img.slug), db.nextId, 0, 0, []⟩ := rfl
  have hids0 : ∀ r ∈ (⟨db.images.map (fun img => img.slug), db.nextId, 0, 0, []⟩
      : SyncAcc).rev, r.id < (⟨db.images.map (fun img => img.slug), db.nextId, 0, 0, []⟩
      : SyncAcc).nextId := by
    intro r hr
    simp at hr
  have hpw0 : (⟨db.images.map (fun img => img.slug), db.nextId, 0, 0, []⟩
      : SyncAcc).rev.Pairwise (fun a b => b.id < a.id) := by
    simp
  obtain ⟨g1, g2, g3, g4⟩ := sync_foldl_ids env uid db.images.length
    (ms.filter momentFilter)
    ⟨db.images.map (fun img => img.slug), db.nextId, 0, 0, []⟩ hids0 hpw0
  rw [← haccdef] at g1 g2 g3 g4
  unfold syncCoreDB
  by_cases hE : (runSync env uid db ms).rev.reverse.isEmpty = true
  · rw [if_pos hE]
    exact ⟨⟨h2, h3, h4⟩, le_refl _⟩
  · rw [if_neg hE]
    refine ⟨⟨?_, ?_, ?_⟩, g1⟩
    · show (((db.images ++ (runSync env uid db ms).rev.reverse).map
        (fun r => r.id))).Nodup
      rw [List.map_append, List.map_reverse]
      refine List.Nodup.append h2 ?_ ?_
      · rw [List.nodup_reverse]
        exact List.Pairwise.map _ (fun a b hab => (Nat.ne_of_lt hab).symm) g3
      · intro x hx hx2
        rw [List.mem_reverse] at hx2
        obtain ⟨r, hr, hrx⟩ := List.mem_map.mp hx2
        obtain ⟨rold, hrold, hrodx⟩ := List.mem_map.mp hx
        have hge : db.nextId ≤ r.id := by
          rcases g4 r hr with hco | hge
          · simp at hco
          · exact hge
        have := h3 rold hrold
        omega
    · intro r hr
      rcases List.mem_append.mp hr with hr | hr
      · exact lt_of_lt_of_le (h3 r hr) g1
      · rw [List.mem_reverse] at hr
        exact g2 r hr
    · exact le_trans h4 g1

/-- The id invariant is preserved by every operation sequence, with no
freshness guard, and the counter never decreases. -/
theorem runOps_idinv (db : DB) (ops : List Op) (h : IdInv db) :
    IdInv (runOps db ops) ∧ db.nextId ≤ (runOps db ops).nextId := by
  induction ops generalizing db with
  | nil => exact ⟨h, le_refl _⟩
  | cons op t ih =>
    have hstep : IdInv (applyOp db op) ∧ db.nextId ≤ (applyOp db op).nextId := by
      cases op with
      | ins data now => exact idinv_createImage db data now h
      | upd i d now =>
        have hh := idinv_updateImage db i d now h
        exact ⟨hh.1, le_of_eq hh.2.symm⟩
      | del i =>
        have hh := idinv_deleteImage db i h
        exact ⟨hh.1, le_of_eq hh.2.symm⟩
      | syn env uid ms =>
        have hload : loadStore (.obj db) = db := loadStore_obj_id db h.2.2
        show IdInv (syncCoreDB env uid (loadStore (.obj db)) ms) ∧
          db.nextId ≤ (syncCoreDB env uid (loadStore (.obj db)) ms).nextId
        rw [hload]
        exact idinv_syncCoreDB env uid db ms h
    have hrun : runOps db (op :: t) = runOps (applyOp db op) t := rfl
    rw [hrun]
    obtain ⟨i1, i2⟩ := ih (applyOp db op) hstep.1
    exact ⟨i1, le_trans hstep.2 i2⟩

/-- C3 (amended): from any well-formed store, identifiers are assigned
monotonically in every reachable state with no side condition on the
operations — ids stay unique and below the counter, the counter never
decreases, and each insert receives the current counter, strictly
greater than every stored record's id. Slug uniqueness, by contrast,
holds in every reachable state only under the freshness guard (inserts
use an unused slug, updates never rename a record to another record's
slug): insert and update do not check slugs, as the counterexample
shows. -/
theorem c3_invariant_preserved (db : DB) (ops : List Op) (hid : IdInv db) :
    (IdInv (runOps db ops) ∧ db.nextId ≤ (runOps db ops).nextId ∧
      (∀ (data : NewImageData) (now : String),
        ((createImage (runOps db ops) data now).1).id = (runOps db ops).nextId ∧
        ∀ r ∈ (runOps db ops).images,
          r.id < ((createImage (runOps db ops) data now).1).id)) ∧
    ((db.images.map (fun r => r.slug)).Nodup → okTrace db ops →
      ((runOps db ops).images.map (fun r => r.slug)).Nodup) := by
  have hA := runOps_idinv db ops hid
  refine ⟨⟨hA.1, hA.2, ?_⟩, ?_⟩
  · intro data now
    exact ⟨rfl, fun r hr => hA.1.2.1 r hr⟩
  · intro hslug hok
    have hInv : Inv db := ⟨hslug, hid.1, hid.2.1, hid.2.2⟩
    exact (runOps_inv db ops hInv hok).1.1

/-- Closed witness for C3 (amended): the unguarded duplicate-slug trace
of the counterexample still satisfies the id half. -/
theorem c3_invariant_preserved_witness :
    (IdInv (runOps initialDB [Op.ins cNewA "t1", Op.ins cNewA "t2"]) ∧
      initialDB.nextId ≤ (runOps initialDB [Op.ins cNewA "t1", Op.ins cNewA "t2"]).nextId ∧
      (∀ (data : NewImageData) (now : String),
        ((createImage (runOps initialDB [Op.ins cNewA "t1", Op.ins cNewA "t2"]) data now).1).id
          = (runOps initialDB [Op.ins cNewA "t1", Op.ins cNewA "t2"]).nextId ∧
        ∀ r ∈ (runOps initialDB [Op.ins cNewA "t1", Op.ins cNewA "t2"]).images,
          r.id < ((createImage (runOps initialDB
            [Op.ins cNewA "t1", Op.ins cNewA "t2"]) data now).1).id)) ∧
    ((initialDB.images.map (fun r => r.slug)).Nodup →
      okTrace initialDB [Op.ins cNewA "t1", Op.ins cNewA "t2"] →
      ((runOps initialDB [Op.ins cNewA "t1", Op.ins cNewA "t2"]).images.map
        (fun r => r.slug)).Nodup) :=
  c3_invariant_preserved initialDB [Op.ins cNewA "t1", Op.ins cNewA "t2"]
    (by refine ⟨?_, ?_, ?_⟩ <;> simp [initialDB])

end Gallery
